import Mathlib

/-
Shallow embedding of `src/pretix/base/models/items.py` (the quota
availability engine and the variation combinatorics engine), together
with proofs of the specified properties.

Modelling conventions:
- Django model instances become plain structures; database ids are `Nat`.
- `DecimalField` prices become `Int` (only equality/propagation of prices
  matters to the properties below, never decimal arithmetic).
- `DateTimeField` timestamps become `Int`; the single call-time instant
  `now()` is passed explicitly (the source calls `now()` several times in
  one evaluation; the embedding evaluates everything at one instant).
- Nullable fields become `Option`.
- The many-to-many relations are represented from the side each function
  reads them: a `Quota` stores the ids of the items/variations it covers
  (the source's `item__quotas__in=[self]` / `variation__quotas__in=[self]`
  lookups read the same symmetric relation), while items and variations
  store the `Quota` records they belong to.
- Python exceptions (`ValueError` from `Item.check_quotas` and from
  `min([])` on an empty sequence) become `Except` errors.
-/

namespace Pretix

/-- `Quota.AVAILABILITY_GONE` from the source. -/
def AVAILABILITY_GONE : Nat := 0

/-- `Quota.AVAILABILITY_ORDERED` from the source. -/
def AVAILABILITY_ORDERED : Nat := 10

/-- `Quota.AVAILABILITY_RESERVED` from the source. -/
def AVAILABILITY_RESERVED : Nat := 20

/-- `Quota.AVAILABILITY_OK` from the source. -/
def AVAILABILITY_OK : Nat := 100

/-- A `PropertyValue` row: its id and the id of the owning `Property`
(`prop_id` in the source). -/
structure PropertyValue where
  id : Nat
  propId : Nat
deriving DecidableEq

/-- A `Property` row together with its `values` relation (ordered as the
source's `position, id` ordering delivers them). -/
structure ItemProperty where
  id : Nat
  values : List PropertyValue
deriving DecidableEq

/-- A `Quota` row: nullable capacity `size` plus the ids of the items and
variations it directly covers (`Quota.items` / `Quota.variations`). -/
structure Quota where
  size : Option Nat
  itemIds : List Nat
  variationIds : List Nat
deriving DecidableEq

/-- An `ItemVariation` row with its `values` set, `active` flag, nullable
`default_price` and the quotas it belongs to (`variations.quotas`). -/
structure Variation where
  id : Nat
  values : List PropertyValue
  active : Bool
  default_price : Option Int
  quotas : List Quota
deriving DecidableEq

/-- An `Item` row with the relations the embedded methods read. -/
structure Item where
  id : Nat
  active : Bool
  default_price : Option Int
  available_from : Option Int
  available_until : Option Int
  properties : List ItemProperty
  variations : List Variation
  quotas : List Quota
deriving DecidableEq

/-- The `Order.STATUS_*` constants that the counting queries mention
(every further status behaves like `other` for these queries). -/
inductive OrderStatus where
  | paid
  | pending
  | other
deriving DecidableEq

/-- The fields of an `Order` row read by `Quota.count_orders`. -/
structure Order where
  status : OrderStatus
  expires : Int
deriving DecidableEq

/-- An `OrderPosition` row: its order and its item/variation references. -/
structure OrderPosition where
  order : Order
  itemId : Nat
  variationId : Option Nat
deriving DecidableEq

/-- A `CartPosition` row: item/variation references and its expiry. -/
structure CartPosition where
  itemId : Nat
  variationId : Option Nat
  expires : Int
deriving DecidableEq

/-- `Quota._position_lookup`: a position belongs to the quota iff it has
no variation and its item is covered by the quota, or it has a variation
covered by the quota (for a position with a variation the first disjunct
is false, and for one without, the `variation__quotas` join is empty). -/
def positionLookup (q : Quota) (itemId : Nat) (variationId : Option Nat) : Bool :=
  match variationId with
  | none => q.itemIds.contains itemId
  | some v => q.variationIds.contains v

/-- The dictionary returned by `Quota.count_orders` after its
null-to-zero loop. -/
structure OrderCounts where
  paid : Nat
  pending : Nat
deriving DecidableEq

/-- The raw aggregate of `Quota.count_orders` before the null-to-zero
loop: `Sum(Case(...))` yields SQL NULL when no matching row contributes
(modelled as `none` exactly when the conditional count is zero). -/
structure OrderCountsRaw where
  paid : Option Nat
  pending : Option Nat
deriving DecidableEq

/-- The aggregation step of `Quota.count_orders`: filter order positions
by `_position_lookup`, then sum `1` over PAID rows and over PENDING rows
whose order has `expires >= now()`. -/
def Quota.count_orders_raw (q : Quota) (ops : List OrderPosition) (now : Int) :
    OrderCountsRaw :=
  let matched := ops.filter (fun p => positionLookup q p.itemId p.variationId)
  let paidCount := matched.countP (fun p => decide (p.order.status = OrderStatus.paid))
  let pendingCount := matched.countP
    (fun p => decide (p.order.status = OrderStatus.pending ∧ now ≤ p.order.expires))
  { paid := if paidCount = 0 then none else some paidCount,
    pending := if pendingCount = 0 then none else some pendingCount }

/-- `Quota.count_orders`: the aggregate above with every `None` replaced
by `0` (the source's `for k, v in o.items(): if v is None: o[k] = 0`). -/
def Quota.count_orders (q : Quota) (ops : List OrderPosition) (now : Int) :
    OrderCounts :=
  let o := q.count_orders_raw ops now
  { paid := o.paid.getD 0, pending := o.pending.getD 0 }

/-- `Quota.count_in_cart`: cart positions matching `_position_lookup`
whose `expires >= now()`. -/
def Quota.count_in_cart (q : Quota) (cps : List CartPosition) (now : Int) : Nat :=
  (cps.filter (fun c => decide (now ≤ c.expires) &&
    positionLookup q c.itemId c.variationId)).length

/-- The arithmetic core of `Quota.availability`: the layered subtraction
of the paid, pending and cart counts from the capacity. -/
def availabilityCounts (size : Option Nat) (paid pending cart : Nat) :
    Nat × Option Int :=
  match size with
  | none => (AVAILABILITY_OK, none)
  | some cap =>
    let l1 : Int := (cap : Int) - (paid : Int)
    if l1 ≤ 0 then (AVAILABILITY_GONE, some 0)
    else
      let l2 : Int := l1 - (pending : Int)
      if l2 ≤ 0 then (AVAILABILITY_ORDERED, some 0)
      else
        let l3 : Int := l2 - (cart : Int)
        if l3 ≤ 0 then (AVAILABILITY_RESERVED, some 0)
        else (AVAILABILITY_OK, some l3)

/-- `Quota.availability`: compute the order counts and cart count for the
quota and run the layered subtraction. -/
def Quota.availability (q : Quota) (ops : List OrderPosition)
    (cps : List CartPosition) (now : Int) : Nat × Option Int :=
  let orders := q.count_orders ops now
  availabilityCounts q.size orders.paid orders.pending (q.count_in_cart cps now)

/-- `sys.maxsize` on a 64-bit CPython, the sentinel used by
`check_quotas` for a `None` remaining count. -/
def sysMaxsize : Int := 2 ^ 63 - 1

/-- The sort key `lambda s: (s[0], s[1] if s[1] is not None else sys.maxsize)`
used by both `check_quotas` methods. -/
def availSortKey (p : Nat × Option Int) : Nat × Int :=
  (p.1, match p.2 with | none => sysMaxsize | some r => r)

/-- Python's lexicographic `<` on the sort keys. -/
def keyLt (a b : Nat × Int) : Bool :=
  decide (a.1 < b.1 ∨ (a.1 = b.1 ∧ a.2 < b.2))

/-- Python's lexicographic `<=` on the sort keys (specification side of
`keyLt`). -/
def keyLe (a b : Nat × Int) : Prop :=
  a.1 < b.1 ∨ (a.1 = b.1 ∧ a.2 ≤ b.2)

/-- Python's `min(results, key=...)`: `none` on an empty sequence (where
CPython raises `ValueError`), otherwise the first element with minimal
key. -/
def minAvailability : List (Nat × Option Int) → Option (Nat × Option Int)
  | [] => none
  | x :: xs =>
    some (xs.foldl
      (fun best r => if keyLt (availSortKey r) (availSortKey best) then r else best) x)

/-- The two failure modes of the `check_quotas` methods: the explicit
`ValueError` raised for an item with properties, and the `ValueError`
CPython's `min` raises on an empty sequence of quotas. -/
inductive CheckQuotasError where
  | hasProperties
  | noQuotas
deriving DecidableEq

/-- `Item.check_quotas`: raises for an item with properties, otherwise
the minimum of the availabilities of the item's quotas. -/
def Item.check_quotas (item : Item) (ops : List OrderPosition)
    (cps : List CartPosition) (now : Int) :
    Except CheckQuotasError (Nat × Option Int) :=
  if item.properties.length > 0 then Except.error CheckQuotasError.hasProperties
  else
    match minAvailability (item.quotas.map (fun q => q.availability ops cps now)) with
    | none => Except.error CheckQuotasError.noQuotas
    | some p => Except.ok p

/-- `ItemVariation.check_quotas`: the minimum of the availabilities of
the variation's quotas. -/
def Variation.check_quotas (v : Variation) (ops : List OrderPosition)
    (cps : List CartPosition) (now : Int) :
    Except CheckQuotasError (Nat × Option Int) :=
  match minAvailability (v.quotas.map (fun q => q.availability ops cps now)) with
  | none => Except.error CheckQuotasError.noQuotas
  | some p => Except.ok p

/-- `Item.is_available`: the `active` flag and the inclusive sale window
(`available_from`/`available_until`), evaluated at one instant. -/
def Item.is_available (item : Item) (now : Int) : Bool :=
  if !item.active then false
  else if (match item.available_from with
           | some f => decide (now < f)
           | none => false) then false
  else if (match item.available_until with
           | some u => decide (u < now)
           | none => false) then false
  else true

/-- `itertools.product` over a list of lists, in CPython's iteration
order (rightmost factor varies fastest); `pyProduct [] = [[]]`. -/
def pyProduct {α : Type} : List (List α) → List (List α)
  | [] => [[]]
  | l :: ls => l.flatMap (fun x => (pyProduct ls).map (fun c => x :: c))

/-- Lexicographic order on `(prop_id, value_id)` pairs, the order Python's
`sorted` uses on the key tuples. -/
def pairLe (a b : Nat × Nat) : Prop :=
  a.1 < b.1 ∨ (a.1 = b.1 ∧ a.2 ≤ b.2)

instance : DecidableRel pairLe := fun a b =>
  inferInstanceAs (Decidable (a.1 < b.1 ∨ (a.1 = b.1 ∧ a.2 ≤ b.2)))

/-- `tuple(sorted(key))` for the list of `(prop_id, value_id)` pairs of a
list of property values. -/
def sortedKey (vals : List PropertyValue) : List (Nat × Nat) :=
  List.insertionSort pairLe (vals.map (fun v => (v.propId, v.id)))

/-- A `VariationDict` as produced by `Item.get_all_variations` and
`Item._get_all_generated_variations`: the property-id-to-value entries in
insertion order, and the optional `variation` entry. -/
structure VariationDict where
  entries : List (Nat × PropertyValue)
  variation : Option Variation
deriving DecidableEq

/-- Lookup in the `variations_cache` dict: of all insertions under the
key, the last one wins (Python dict overwrite semantics). -/
def dictLookup (key : List (Nat × Nat))
    (cache : List (List (Nat × Nat) × Variation)) : Option Variation :=
  (cache.reverse.find? (fun e => decide (e.1 = key))).map (fun e => e.2)

/-- `Item.get_all_variations` (the `use_cache` branch only replays a
previous result and is not modelled): build the key-to-variation cache
from all of the item's variations, then walk the cartesian product of the
properties' value lists, attaching the cached variation of each
combination's sorted key. -/
def Item.get_all_variations (item : Item) : List VariationDict :=
  let cache := item.variations.map (fun var => (sortedKey var.values, var))
  (pyProduct (item.properties.map (fun p => p.values))).map (fun comb =>
    if comb.isEmpty then { entries := [], variation := none }
    else { entries := comb.map (fun v => (v.propId, v)),
           variation := dictLookup (sortedKey comb) cache })

/-- Equality of the Python `set`s built from two lists of ids. -/
def listSetEq (l1 l2 : List Nat) : Bool :=
  l1.all (fun x => l2.contains x) && l2.all (fun x => l1.contains x)

/-- `Item._get_all_generated_variations`: one empty dict for an item with
no properties; otherwise, for each variation belonging to at least one
quota (`qc__gt=0`) whose value set references exactly the item's current
property id set, a dict of its values keyed by property id plus the
variation itself. Variations failing the set test are skipped silently. -/
def Item.get_all_generated_variations (item : Item) : List VariationDict :=
  let propids := item.properties.map (fun p => p.id)
  if propids.isEmpty then [{ entries := [], variation := none }]
  else
    ((item.variations.filter (fun var => !var.quotas.isEmpty)).filter
      (fun var => listSetEq (var.values.map (fun v => v.propId)) propids)).map
      (fun var => { entries := var.values.map (fun v => (v.propId, v)),
                    variation := some var })

/-- A dict in the result of `Item.get_all_available_variations`: the
generated dict enriched with its `available` flag and effective price. -/
structure AvailableDict where
  entries : List (Nat × PropertyValue)
  variation : Option Variation
  available : Bool
  price : Option Int
deriving DecidableEq

/-- `Item.get_all_available_variations` (again without the `use_cache`
replay): annotate each generated dict with `available` (the variation's
`active` flag, or `True` for the empty variation) and the effective price
(the variation's price override if non-null, else the item's default
price), then keep only the available ones. -/
def Item.get_all_available_variations (item : Item) : List AvailableDict :=
  ((item.get_all_generated_variations).map (fun d =>
    { entries := d.entries,
      variation := d.variation,
      available := match d.variation with
        | some var => var.active
        | none => true,
      price := match d.variation with
        | some var =>
          (match var.default_price with
           | some p => some p
           | none => item.default_price)
        | none => item.default_price })).filter (fun d => d.available)

/-- The referential-integrity facts the database guarantees and the
combinatorics proofs use: property ids are unique within an item, and
every value in a property's `values` relation points back at it. -/
def Item.wellFormed (item : Item) : Prop :=
  (item.properties.map (fun p => p.id)).Nodup ∧
  ∀ p ∈ item.properties, ∀ v ∈ p.values, v.propId = p.id

/-
Concrete fixtures used by witness and counterexample theorems.
-/

/-- A capacity-ten quota covering item 1 directly. -/
def quotaTen : Quota := ⟨some 10, [1], []⟩

/-- A capacity-three quota covering item 1 directly. -/
def quotaThree : Quota := ⟨some 3, [1], []⟩

/-- A paid order position for item 1. -/
def posPaid : OrderPosition := ⟨⟨OrderStatus.paid, 0⟩, 1, none⟩

/-- A pending order position for item 1 whose order expired one second
before instant 0. -/
def posPendingExpired : OrderPosition := ⟨⟨OrderStatus.pending, -1⟩, 1, none⟩

/-- A property-less item attached to the two quotas above. -/
def itemPlain : Item := ⟨1, true, some 3, none, none, [], [], [quotaTen, quotaThree]⟩

/-- A property-less item attached to no quota at all. -/
def itemNoQuota : Item := ⟨4, true, some 3, none, none, [], [], []⟩

/-- Value 10 of property 1. -/
def val10 : PropertyValue := ⟨10, 1⟩

/-- Value 11 of property 1. -/
def val11 : PropertyValue := ⟨11, 1⟩

/-- Value 21 of property 2: a value of a property the items below do not
carry (a removed property). -/
def val21 : PropertyValue := ⟨21, 2⟩

/-- A variation carrying two values of property 1 at once, in a quota. -/
def varTwoValues : Variation := ⟨101, [val10, val11], true, some 5, [quotaTen]⟩

/-- A variation whose single value belongs to the removed property 2. -/
def varRemovedProp : Variation := ⟨102, [val21], true, none, [quotaTen]⟩

/-- An item with the single property 1 (values 10 and 11) whose only
variation is the stale `varTwoValues`. -/
def itemDupVar : Item :=
  ⟨3, true, some 3, none, none, [⟨1, [val10]⟩], [varTwoValues], []⟩

/-- An item with the single property 1 whose only variation references
only the removed property 2. -/
def itemStaleVar : Item :=
  ⟨5, true, some 3, none, none, [⟨1, [val10]⟩], [varRemovedProp], []⟩

/-- An item with one property and one healthy variation in one quota. -/
def itemOneVar : Item :=
  ⟨6, true, some 3, none, none, [⟨1, [val10]⟩],
   [⟨103, [val10], true, some 7, [quotaTen]⟩], []⟩

/-
Theorems for the individual claims.
-/

/-- C1: with a null capacity, `availability` yields `(OK, null)` whatever
the counts are; with a finite capacity the verdict follows the layered
subtraction `capacity - paid`, `- pending`, `- cart`, returning the first
stage of GONE/ORDERED/RESERVED whose running remainder is nonpositive and
otherwise `(OK, remainder)` with a strictly positive remainder; the four
concrete examples of the specification evaluate as stated. -/
theorem C1_availability_cascade :
    ∀ paid pending cart : Nat,
      (availabilityCounts none paid pending cart = (AVAILABILITY_OK, none)) ∧
      (∀ cap : Nat,
        ((cap : Int) - paid ≤ 0 →
          availabilityCounts (some cap) paid pending cart =
            (AVAILABILITY_GONE, some 0)) ∧
        (0 < (cap : Int) - paid → (cap : Int) - paid - pending ≤ 0 →
          availabilityCounts (some cap) paid pending cart =
            (AVAILABILITY_ORDERED, some 0)) ∧
        (0 < (cap : Int) - paid - pending →
          (cap : Int) - paid - pending - cart ≤ 0 →
          availabilityCounts (some cap) paid pending cart =
            (AVAILABILITY_RESERVED, some 0)) ∧
        (0 < (cap : Int) - paid - pending - cart →
          availabilityCounts (some cap) paid pending cart =
            (AVAILABILITY_OK, some ((cap : Int) - paid - pending - cart)) ∧
          0 < (cap : Int) - paid - pending - cart)) ∧
      availabilityCounts (some 10) 10 0 0 = (AVAILABILITY_GONE, some 0) ∧
      availabilityCounts (some 10) 3 7 0 = (AVAILABILITY_ORDERED, some 0) ∧
      availabilityCounts (some 10) 3 2 5 = (AVAILABILITY_RESERVED, some 0) ∧
      availabilityCounts (some 10) 1 1 1 = (AVAILABILITY_OK, some 7) := by
  intro paid pending cart
  refine ⟨rfl, fun cap => ⟨?_, ?_, ?_, ?_⟩, by decide, by decide, by decide, by decide⟩
  all_goals
    intros
    simp only [availabilityCounts]
    split_ifs <;> first | exact ⟨rfl, by omega⟩ | rfl | omega

/-- Witness for C1 at a concrete input: the GONE stage fires for
capacity 10 and 10 paid units. -/
theorem C1_availability_cascade_witness :
    availabilityCounts (some 10) 10 0 0 = (AVAILABILITY_GONE, some 0) :=
  ((C1_availability_cascade 10 0 0).2.1 10).1 (by decide)

/-- C3: for a fixed finite capacity and fixed pending and cart counts,
the status component of `availability` is antitone in the paid count
under the numeric status order GONE < ORDERED < RESERVED < OK. -/
theorem C3_status_antitone (cap pending cart paid paid' : Nat)
    (h : paid ≤ paid') :
    (availabilityCounts (some cap) paid' pending cart).1 ≤
      (availabilityCounts (some cap) paid pending cart).1 := by
  simp only [availabilityCounts, AVAILABILITY_GONE, AVAILABILITY_ORDERED,
    AVAILABILITY_RESERVED, AVAILABILITY_OK]
  split_ifs <;> simp_all <;> omega

/-- Witness for C3: raising the paid count from one to nine moves the
status from OK to GONE, a decrease in the status order. -/
theorem C3_status_antitone_witness :
    (availabilityCounts (some 10) 9 2 1).1 ≤
      (availabilityCounts (some 10) 1 2 1).1 :=
  C3_status_antitone 10 2 1 1 9 (by decide)

/-- C8: `is_available` is true exactly when the item is active, the
optional `available_from` bound is at or before the instant, and the
optional `available_until` bound is at or after it; no quota state enters
the computation. -/
theorem C8_is_available_iff (item : Item) (now : Int) :
    item.is_available now = true ↔
      (item.active = true ∧
       (∀ f, item.available_from = some f → f ≤ now) ∧
       (∀ u, item.available_until = some u → now ≤ u)) := by
  cases ha : item.active <;>
    cases hf : item.available_from <;>
      cases hu : item.available_until <;>
        simp [Item.is_available, ha, hf, hu]

/-- Witness for C8 at a concrete item and instant: an active item with an
open-ended window is available. -/
theorem C8_is_available_iff_witness : itemPlain.is_available 0 = true :=
  (C8_is_available_iff itemPlain 0).mpr
    ⟨rfl, fun f hf => by simp [itemPlain] at hf, fun u hu => by simp [itemPlain] at hu⟩

/-- C9: calling `Item.check_quotas` on an item with at least one property
yields the `ValueError` telling the caller to use the variation, for any
order, cart and clock state. -/
theorem C9_check_quotas_properties_error (item : Item)
    (ops : List OrderPosition) (cps : List CartPosition) (now : Int)
    (h : item.properties ≠ []) :
    item.check_quotas ops cps now =
      Except.error CheckQuotasError.hasProperties := by
  have hl : 0 < item.properties.length := List.length_pos.mpr h
  simp [Item.check_quotas, hl]

/-- Witness for C9: the property-bearing fixture item errors out. -/
theorem C9_check_quotas_properties_error_witness :
    itemOneVar.check_quotas [] [] 0 =
      Except.error CheckQuotasError.hasProperties :=
  C9_check_quotas_properties_error itemOneVar [] [] 0 (by decide)

/-- C5: an item without properties attached to no quota, and a variation
attached to no quota, make `check_quotas` surface the empty-sequence
`ValueError` of Python's `min` instead of returning any verdict. -/
theorem C5_no_quotas_error :
    (∀ (item : Item) (ops : List OrderPosition) (cps : List CartPosition)
       (now : Int), item.properties = [] → item.quotas = [] →
       item.check_quotas ops cps now = Except.error CheckQuotasError.noQuotas) ∧
    (∀ (v : Variation) (ops : List OrderPosition) (cps : List CartPosition)
       (now : Int), v.quotas = [] →
       v.check_quotas ops cps now = Except.error CheckQuotasError.noQuotas) := by
  constructor
  · intro item ops cps now hp hq
    simp [Item.check_quotas, hp, hq, minAvailability]
  · intro v ops cps now hq
    simp [Variation.check_quotas, hq, minAvailability]

/-- Witness for C5: the quota-less fixture item errors out. -/
theorem C5_no_quotas_error_witness :
    itemNoQuota.check_quotas [] [] 0 =
      Except.error CheckQuotasError.noQuotas :=
  C5_no_quotas_error.1 itemNoQuota [] [] 0 rfl rfl

/-- Folding the null-to-zero conversion of `count_orders` over the raw
conditional count gives back the plain count. -/
theorem getD_if_zero (c : Nat) : (if c = 0 then none else some c).getD 0 = c := by
  split <;> simp_all

/-- C4: `count_orders` counts a position toward `paid` exactly when it
matches `_position_lookup` and its order is PAID, toward `pending`
exactly when it matches and its order is PENDING with expiry at or after
the instant; `count_in_cart` counts cart positions that match and are
unexpired; a null raw aggregate becomes 0; and a single pending position
expired before the instant contributes nothing. -/
theorem C4_counting :
    (∀ (q : Quota) (ops : List OrderPosition) (now : Int),
       (q.count_orders ops now).paid =
         ops.countP (fun p => positionLookup q p.itemId p.variationId &&
           decide (p.order.status = OrderStatus.paid)) ∧
       (q.count_orders ops now).pending =
         ops.countP (fun p => positionLookup q p.itemId p.variationId &&
           decide (p.order.status = OrderStatus.pending ∧ now ≤ p.order.expires)) ∧
       ((q.count_orders_raw ops now).paid = none →
         (q.count_orders ops now).paid = 0) ∧
       ((q.count_orders_raw ops now).pending = none →
         (q.count_orders ops now).pending = 0)) ∧
    (∀ (q : Quota) (cps : List CartPosition) (now : Int),
       q.count_in_cart cps now =
         cps.countP (fun c => positionLookup q c.itemId c.variationId &&
           decide (now ≤ c.expires))) ∧
    (∀ (q : Quota) (o : Order) (i : Nat) (v : Option Nat) (now : Int),
       o.status = OrderStatus.pending → o.expires < now →
       (q.count_orders [⟨o, i, v⟩] now).pending = 0) := by
  refine ⟨fun q ops now => ⟨?_, ?_, ?_, ?_⟩, fun q cps now => ?_, ?_⟩
  · simp only [Quota.count_orders, Quota.count_orders_raw]
    rw [getD_if_zero, List.countP_filter]
    exact List.countP_congr (fun x _ => by rw [Bool.and_comm])
  · simp only [Quota.count_orders, Quota.count_orders_raw]
    rw [getD_if_zero, List.countP_filter]
    exact List.countP_congr (fun x _ => by rw [Bool.and_comm])
  · intro h
    simp only [Quota.count_orders, h, Option.getD_none]
  · intro h
    simp only [Quota.count_orders, h, Option.getD_none]
  · simp only [Quota.count_in_cart, ← List.countP_eq_length_filter]
    exact List.countP_congr (fun x _ => by rw [Bool.and_comm])
  · intro q o i v now hs he
    have hd : decide (o.status = OrderStatus.pending ∧ now ≤ o.expires) = false := by
      simp only [decide_eq_false_iff_not]
      rintro ⟨-, h2⟩
      omega
    simp only [Quota.count_orders, Quota.count_orders_raw]
    rw [getD_if_zero, List.countP_filter]
    simp [List.countP_cons, hd]
    intro hs2 h2
    omega

/-- Witness for C4: with no matching positions at all the raw paid
aggregate is null and the converted paid count is zero. -/
theorem C4_counting_witness : (quotaTen.count_orders [] 0).paid = 0 :=
  ((C4_counting.1 quotaTen [] 0).2.2.1) rfl

/-- C7: an item with zero properties yields from `get_all_variations`
exactly one combination with no entries and no variation record, and from
`get_all_available_variations` that same combination marked available at
the item's default price. -/
theorem C7_zero_properties (item : Item) (hp : item.properties = []) :
    item.get_all_variations = [{ entries := [], variation := none }] ∧
    item.get_all_available_variations =
      [{ entries := [], variation := none, available := true,
         price := item.default_price }] := by
  constructor
  · simp [Item.get_all_variations, hp, pyProduct]
  · simp [Item.get_all_available_variations, Item.get_all_generated_variations, hp]

/-- Witness for C7: the property-less fixture item produces its single
empty combination at its default price. -/
theorem C7_zero_properties_witness :
    itemNoQuota.get_all_variations = [{ entries := [], variation := none }] ∧
    itemNoQuota.get_all_available_variations =
      [{ entries := [], variation := none, available := true,
         price := itemNoQuota.default_price }] :=
  C7_zero_properties itemNoQuota rfl

/-- C10: for an item with at least one property, every dict returned by
`get_all_available_variations` carries a variation that belongs to at
least one quota; a variation in no quota is filtered out before any other
consideration. -/
theorem C10_available_variations_need_quota (item : Item)
    (hp : item.properties ≠ []) :
    ∀ d ∈ item.get_all_available_variations, ∀ var,
      d.variation = some var → var.quotas ≠ [] := by
  intro d hd var hv
  unfold Item.get_all_available_variations at hd
  rw [List.mem_filter] at hd
  obtain ⟨hd, -⟩ := hd
  rw [List.mem_map] at hd
  obtain ⟨d0, hd0, rfl⟩ := hd
  unfold Item.get_all_generated_variations at hd0
  have hpe : (item.properties.map (fun p => p.id)).isEmpty = false := by
    cases hprops : item.properties with
    | nil => exact absurd hprops hp
    | cons a l => simp
  rw [if_neg (by simp [hpe])] at hd0
  rw [List.mem_map] at hd0
  obtain ⟨var0, hvar0, rfl⟩ := hd0
  rw [List.mem_filter] at hvar0
  obtain ⟨hvar0, -⟩ := hvar0
  rw [List.mem_filter] at hvar0
  obtain ⟨-, hq⟩ := hvar0
  dsimp only at hv
  cases hv
  simpa using hq

/-- The specification-side combined order on `(status, remaining)` pairs:
status first (numerically, GONE < ORDERED < RESERVED < OK), then the
remaining count, a null remaining comparing larger than every finite
remaining. -/
def statusRemLE (a b : Nat × Option Int) : Prop :=
  a.1 < b.1 ∨ (a.1 = b.1 ∧
    match a.2, b.2 with
    | _, none => True
    | none, some _ => False
    | some x, some y => x ≤ y)

/-- The sort keys are reflexively ordered. -/
theorem keyLe_refl (a : Nat × Int) : keyLe a a := by
  unfold keyLe
  omega

/-- The sort-key order is transitive. -/
theorem keyLe_trans {a b c : Nat × Int} (h1 : keyLe a b) (h2 : keyLe b c) :
    keyLe a c := by
  unfold keyLe at h1 h2 ⊢
  omega

/-- A failed strict comparison yields the reverse weak comparison. -/
theorem keyLe_of_keyLt_eq_false {a b : Nat × Int} (h : keyLt a b = false) :
    keyLe b a := by
  rw [keyLt, decide_eq_false_iff_not] at h
  unfold keyLe
  omega

/-- A successful strict comparison yields the weak comparison. -/
theorem keyLe_of_keyLt_eq_true {a b : Nat × Int} (h : keyLt a b = true) :
    keyLe a b := by
  rw [keyLt, decide_eq_true_eq] at h
  unfold keyLe
  omega

/-- The fold inside `minAvailability` returns the accumulator or a list
element, and its key is a lower bound for both. -/
theorem foldl_minAvailability_spec (xs : List (Nat × Option Int)) :
    ∀ a : Nat × Option Int,
      (xs.foldl
        (fun best r => if keyLt (availSortKey r) (availSortKey best) then r else best)
        a = a ∨
       xs.foldl
        (fun best r => if keyLt (availSortKey r) (availSortKey best) then r else best)
        a ∈ xs) ∧
      keyLe
        (availSortKey (xs.foldl
          (fun best r => if keyLt (availSortKey r) (availSortKey best) then r else best)
          a))
        (availSortKey a) ∧
      ∀ r ∈ xs,
        keyLe
          (availSortKey (xs.foldl
            (fun best r => if keyLt (availSortKey r) (availSortKey best) then r else best)
            a))
          (availSortKey r) := by
  induction xs with
  | nil =>
    intro a
    exact ⟨Or.inl rfl, keyLe_refl _, by simp⟩
  | cons x t ih =>
    intro a
    simp only [List.foldl_cons]
    obtain ⟨hmem, hacc, hall⟩ :=
      ih (if keyLt (availSortKey x) (availSortKey a) then x else a)
    have hxa : keyLe
        (availSortKey (if keyLt (availSortKey x) (availSortKey a) then x else a))
        (availSortKey a) ∧
        keyLe
          (availSortKey (if keyLt (availSortKey x) (availSortKey a) then x else a))
          (availSortKey x) := by
      by_cases hlt : keyLt (availSortKey x) (availSortKey a) = true
      · rw [if_pos hlt]
        exact ⟨keyLe_of_keyLt_eq_true hlt, keyLe_refl _⟩
      · rw [if_neg hlt]
        have := keyLe_of_keyLt_eq_false (Bool.of_not_eq_true hlt)
        exact ⟨keyLe_refl _, this⟩
    refine ⟨?_, keyLe_trans hacc hxa.1, ?_⟩
    · rcases hmem with h | h
      · rw [h]
        by_cases hlt : keyLt (availSortKey x) (availSortKey a) = true
        · rw [if_pos hlt]
          exact Or.inr (List.mem_cons_self x t)
        · rw [if_neg hlt]
          exact Or.inl rfl
      · exact Or.inr (List.mem_cons_of_mem x h)
    · intro r hr
      rcases List.mem_cons.mp hr with rfl | hr
      · exact keyLe_trans hacc hxa.2
      · exact hall r hr

/-- `minAvailability` on a nonempty list returns an element whose sort
key is minimal. -/
theorem minAvailability_spec (l : List (Nat × Option Int)) (hl : l ≠ []) :
    ∃ m, minAvailability l = some m ∧ m ∈ l ∧
      ∀ r ∈ l, keyLe (availSortKey m) (availSortKey r) := by
  cases l with
  | nil => exact absurd rfl hl
  | cons x xs =>
    obtain ⟨hmem, hacc, hall⟩ := foldl_minAvailability_spec xs x
    refine ⟨_, rfl, ?_, ?_⟩
    · rcases hmem with h | h
      · rw [h]; exact List.mem_cons_self x xs
      · exact List.mem_cons_of_mem x h
    · intro r hr
      rcases List.mem_cons.mp hr with rfl | hr
      · exact hacc
      · exact hall r hr

/-- Below the `sys.maxsize` sentinel, the sort-key order agrees with the
specification's status-then-remaining order with null as top. -/
theorem keyLe_iff_statusRemLE (a b : Nat × Option Int)
    (ha : ∀ r, a.2 = some r → r < sysMaxsize)
    (hb : ∀ r, b.2 = some r → r < sysMaxsize) :
    keyLe (availSortKey a) (availSortKey b) ↔ statusRemLE a b := by
  rcases a with ⟨s1, r1⟩
  rcases b with ⟨s2, r2⟩
  cases r1 with
  | none =>
    cases r2 with
    | none => simp [keyLe, statusRemLE, availSortKey]
    | some y =>
      have hy := hb y rfl
      simp only [keyLe, statusRemLE, availSortKey]
      constructor
      · rintro (h | ⟨h, h2⟩)
        · exact Or.inl h
        · omega
      · rintro (h | ⟨h, h2⟩)
        · exact Or.inl h
        · exact absurd h2 (by simp)
  | some x =>
    cases r2 with
    | none =>
      have hx := ha x rfl
      simp only [keyLe, statusRemLE, availSortKey]
      constructor
      · rintro (h | ⟨h, h2⟩)
        · exact Or.inl h
        · exact Or.inr ⟨h, trivial⟩
      · rintro (h | ⟨h, h2⟩)
        · exact Or.inl h
        · exact Or.inr ⟨h, by omega⟩
    | some y =>
      simp [keyLe, statusRemLE, availSortKey]

/-- A finite remaining returned by `availability` never reaches the
`sys.maxsize` sentinel when the quota's capacity does not. -/
theorem availability_remaining_lt (q : Quota) (ops : List OrderPosition)
    (cps : List CartPosition) (now : Int)
    (hq : ((q.size.getD 0 : Nat) : Int) < sysMaxsize) :
    ∀ r, (q.availability ops cps now).2 = some r → r < sysMaxsize := by
  have core : ∀ (size : Option Nat) (paid pending cart : Nat),
      ((size.getD 0 : Nat) : Int) < sysMaxsize →
      ∀ r, (availabilityCounts size paid pending cart).2 = some r →
        r < sysMaxsize := by
    intro size paid pending cart hsz r h
    cases size with
    | none => simp [availabilityCounts] at h
    | some n =>
      simp only [Option.getD_some] at hsz
      simp only [availabilityCounts] at h
      split_ifs at h <;> simp_all <;> omega
  intro r h
  exact core q.size _ _ _ hq r h

/-- Core of both `check_quotas` methods: over a nonempty list of quotas
with capacities below `sys.maxsize`, the minimum picked with the
`sys.maxsize` sort key is a member of the availability results and a
lower bound for all of them in the specification order. -/
theorem minAvailability_quotas (qs : List Quota) (ops : List OrderPosition)
    (cps : List CartPosition) (now : Int) (hq : qs ≠ [])
    (hb : ∀ q ∈ qs, ((q.size.getD 0 : Nat) : Int) < sysMaxsize) :
    ∃ p, minAvailability (qs.map (fun q => q.availability ops cps now)) = some p ∧
      p ∈ qs.map (fun q => q.availability ops cps now) ∧
      ∀ r ∈ qs.map (fun q => q.availability ops cps now), statusRemLE p r := by
  have hl : qs.map (fun q => q.availability ops cps now) ≠ [] := by
    simpa using hq
  obtain ⟨m, hm, hmem, hall⟩ := minAvailability_spec _ hl
  have hbound : ∀ x ∈ qs.map (fun q => q.availability ops cps now),
      ∀ r, x.2 = some r → r < sysMaxsize := by
    intro x hx
    rw [List.mem_map] at hx
    obtain ⟨q, hq', rfl⟩ := hx
    exact availability_remaining_lt q ops cps now (hb q hq')
  refine ⟨m, hm, hmem, fun r hr => ?_⟩
  exact (keyLe_iff_statusRemLE m r (hbound m hmem) (hbound r hr)).mp (hall r hr)

/-- C2: for an item without properties attached to at least one quota,
and for a variation attached to at least one quota (with each attached
capacity below `sys.maxsize`, as every stored capacity is),
`check_quotas` returns a pair that is one of the per-quota `availability`
results and is minimal among them in the order that compares status first
(GONE < ORDERED < RESERVED < OK) and then the remaining count, a null
remaining comparing larger than every finite remaining. -/
theorem C2_check_quotas_min :
    (∀ (item : Item) (ops : List OrderPosition) (cps : List CartPosition)
       (now : Int), item.properties = [] → item.quotas ≠ [] →
       (∀ q ∈ item.quotas, ((q.size.getD 0 : Nat) : Int) < sysMaxsize) →
       ∃ p, item.check_quotas ops cps now = Except.ok p ∧
         p ∈ item.quotas.map (fun q => q.availability ops cps now) ∧
         ∀ r ∈ item.quotas.map (fun q => q.availability ops cps now),
           statusRemLE p r) ∧
    (∀ (v : Variation) (ops : List OrderPosition) (cps : List CartPosition)
       (now : Int), v.quotas ≠ [] →
       (∀ q ∈ v.quotas, ((q.size.getD 0 : Nat) : Int) < sysMaxsize) →
       ∃ p, v.check_quotas ops cps now = Except.ok p ∧
         p ∈ v.quotas.map (fun q => q.availability ops cps now) ∧
         ∀ r ∈ v.quotas.map (fun q => q.availability ops cps now),
           statusRemLE p r) := by
  constructor
  · intro item ops cps now hp hq hb
    obtain ⟨p, hp1, hp2, hp3⟩ := minAvailability_quotas item.quotas ops cps now hq hb
    refine ⟨p, ?_, hp2, hp3⟩
    simp [Item.check_quotas, hp, hp1]
  · intro v ops cps now hq hb
    obtain ⟨p, hp1, hp2, hp3⟩ := minAvailability_quotas v.quotas ops cps now hq hb
    refine ⟨p, ?_, hp2, hp3⟩
    simp [Variation.check_quotas, hp1]

/-- Witness for C2: for the two-quota fixture item with one paid
position, the returned pair `(OK, 2)` is below the other quota's
`(OK, 9)` in the specification order. -/
theorem C2_check_quotas_min_witness :
    statusRemLE (100, some 2) (100, some 9) := by
  obtain ⟨p, hp1, hp2, hp3⟩ :=
    C2_check_quotas_min.1 itemPlain [posPaid] [] 0 rfl (by decide) (by decide)
  have he : itemPlain.check_quotas [posPaid] [] 0 = Except.ok (100, some 2) := by
    rfl
  rw [he] at hp1
  have hpe : (100, some 2) = p := Except.ok.inj hp1
  rw [← hpe] at hp3
  exact hp3 (100, some 9) (by decide)

/-- Membership in the cartesian product is choosing one element from
each factor. -/
theorem mem_pyProduct {α : Type} {ls : List (List α)} {comb : List α} :
    comb ∈ pyProduct ls ↔ List.Forall₂ (fun x l => x ∈ l) comb ls := by
  induction ls generalizing comb with
  | nil =>
    simp only [pyProduct, List.mem_singleton]
    rw [List.forall₂_nil_right_iff]
  | cons l ls ih =>
    simp only [pyProduct, List.mem_flatMap, List.mem_map]
    constructor
    · rintro ⟨x, hx, c, hc, rfl⟩
      exact List.Forall₂.cons hx (ih.mp hc)
    · intro h
      cases h with
      | cons hx hc => exact ⟨_, hx, _, ih.mpr hc, rfl⟩

/-- In a well-formed item, a combination drawn from the properties'
value lists carries exactly the properties' ids, in order. -/
theorem comb_map_propId {props : List ItemProperty} {comb : List PropertyValue}
    (hwf : ∀ p ∈ props, ∀ v ∈ p.values, v.propId = p.id)
    (h : List.Forall₂ (fun x l => x ∈ l) comb (props.map (fun p => p.values))) :
    comb.map (fun v => v.propId) = props.map (fun p => p.id) := by
  induction props generalizing comb with
  | nil =>
    rw [List.map_nil, List.forall₂_nil_right_iff] at h
    subst h
    rfl
  | cons p ps ih =>
    rw [List.map_cons] at h
    cases h with
    | cons ha has =>
      simp only [List.map_cons, List.cons.injEq]
      constructor
      · exact hwf p (List.mem_cons_self p ps) _ ha
      · exact ih (fun p' hp' => hwf p' (List.mem_cons_of_mem p hp')) has

/-- A variation found in the `variations_cache` dict was inserted under
the sorted key of its own value set. -/
theorem matched_variation_key {vars : List Variation} {key : List (Nat × Nat)}
    {var : Variation}
    (h : dictLookup key (vars.map (fun v0 => (sortedKey v0.values, v0))) =
      some var) :
    sortedKey var.values = key ∧ var ∈ vars := by
  unfold dictLookup at h
  rw [Option.map_eq_some'] at h
  obtain ⟨e, he, hmap⟩ := h
  have h1 := List.find?_some he
  have h2 := List.mem_of_find?_eq_some he
  rw [List.mem_reverse, List.mem_map] at h2
  obtain ⟨v0, hv0, heq⟩ := h2
  rw [decide_eq_true_eq] at h1
  subst heq
  dsimp only at hmap h1
  subst hmap
  exact ⟨h1, hv0⟩

/-- Equal Python `set`s of two id lists give equal finsets. -/
theorem listSetEq_toFinset {l1 l2 : List Nat} (h : listSetEq l1 l2 = true) :
    l1.toFinset = l2.toFinset := by
  unfold listSetEq at h
  rw [Bool.and_eq_true, List.all_eq_true, List.all_eq_true] at h
  ext x
  simp only [List.mem_toFinset]
  constructor
  · intro hx
    exact List.elem_iff.mp (h.1 x hx)
  · intro hx
    exact List.elem_iff.mp (h.2 x hx)

/-- Counterexample to C6 as stated: `itemDupVar` currently has the single
property 1, and its variation `varTwoValues` carries two values of that
property at once, so its value set does not cover the property set
exactly; yet `get_all_available_variations` returns it, because the
staleness filter of `_get_all_generated_variations` only compares the
Python `set` of property ids, which collapses the duplicate. -/
theorem C6_counterexample :
    itemDupVar.properties = [⟨1, [val10]⟩] ∧
    varTwoValues.values = [val10, val11] ∧
    val10.propId = 1 ∧
    val11.propId = 1 ∧
    itemDupVar.get_all_available_variations =
      [{ entries := [(1, val10), (1, val11)], variation := some varTwoValues,
         available := true, price := some 5 }] := by
  exact ⟨rfl, rfl, rfl, rfl, by decide⟩

/-- C6 amended: a variation whose `(value, property)` multiset is not
exactly one value per current property is never matched to any
combination by `get_all_variations`; and a variation whose value set
references a property id set different from the item's current property
id set never appears in `get_all_available_variations` either. (As
`C6_counterexample` shows, a variation with more than one value for one
current property — property id sets still equal — does appear in
`get_all_available_variations`, so the original claim fails there.) -/
theorem C6_amended_stale_never_matched (item : Item) (var : Variation)
    (hwf : item.wellFormed) :
    (¬ (var.values.map (fun v => v.propId)).Perm
        (item.properties.map (fun p => p.id)) →
      ∀ d ∈ item.get_all_variations, d.variation ≠ some var) ∧
    ((var.values.map (fun v => v.propId)).toFinset ≠
        (item.properties.map (fun p => p.id)).toFinset →
      ∀ d ∈ item.get_all_available_variations, d.variation ≠ some var) := by
  constructor
  · intro hperm d hd hv
    unfold Item.get_all_variations at hd
    rw [List.mem_map] at hd
    obtain ⟨comb, hcomb, rfl⟩ := hd
    by_cases hne : comb.isEmpty
    · rw [if_pos hne] at hv
      exact Option.noConfusion hv
    · rw [if_neg hne] at hv
      dsimp only at hv
      obtain ⟨hkey, -⟩ := matched_variation_key hv
      apply hperm
      have pa := List.perm_insertionSort pairLe
        (var.values.map (fun v => (v.propId, v.id)))
      have pb := List.perm_insertionSort pairLe
        (comb.map (fun v => (v.propId, v.id)))
      have h1 : (var.values.map (fun v => (v.propId, v.id))).Perm
          (comb.map (fun v => (v.propId, v.id))) := by
        have hk : List.insertionSort pairLe
            (var.values.map (fun v => (v.propId, v.id))) =
            List.insertionSort pairLe
              (comb.map (fun v => (v.propId, v.id))) := hkey
        rw [← hk] at pb
        exact pa.symm.trans pb
      have h2 := h1.map Prod.fst
      rw [List.map_map, List.map_map] at h2
      have e1 : comb.map (fun v => v.propId) =
          item.properties.map (fun p => p.id) :=
        comb_map_propId hwf.2 (mem_pyProduct.mp hcomb)
      rw [← e1]
      exact h2
  · intro hset d hd hv
    unfold Item.get_all_available_variations at hd
    rw [List.mem_filter] at hd
    obtain ⟨hd, -⟩ := hd
    rw [List.mem_map] at hd
    obtain ⟨d0, hd0, rfl⟩ := hd
    unfold Item.get_all_generated_variations at hd0
    by_cases hpe : (item.properties.map (fun p => p.id)).isEmpty
    · rw [if_pos hpe, List.mem_singleton] at hd0
      subst hd0
      dsimp only at hv
      exact Option.noConfusion hv
    · rw [if_neg hpe, List.mem_map] at hd0
      obtain ⟨var0, hvar0, rfl⟩ := hd0
      rw [List.mem_filter] at hvar0
      obtain ⟨-, hseq⟩ := hvar0
      dsimp only at hv
      cases hv
      exact hset (listSetEq_toFinset hseq)

/-- Witness for the amended C6: the variation referencing only the
removed property 2 is not matched to the single generated combination of
`itemStaleVar`. -/
theorem C6_amended_stale_never_matched_witness :
    ({ entries := [(1, val10)], variation := none } : VariationDict).variation ≠
      some varRemovedProp :=
  (C6_amended_stale_never_matched itemStaleVar varRemovedProp
      ⟨by decide, by decide⟩).1 (by decide)
    { entries := [(1, val10)], variation := none } (by decide)

/-- Witness for C10: the quota-attached variation of the one-property
fixture item indeed has a quota. -/
theorem C10_available_variations_need_quota_witness :
    (⟨103, [val10], true, some 7, [quotaTen]⟩ : Variation).quotas ≠ [] :=
  C10_available_variations_need_quota itemOneVar (by decide)
    { entries := [(1, val10)],
      variation := some ⟨103, [val10], true, some 7, [quotaTen]⟩,
      available := true, price := some 7 }
    (by decide) ⟨103, [val10], true, some 7, [quotaTen]⟩ rfl

end Pretix
